import Mathlib

/-!
Verification development for the omero-screen segmentation-and-measurement
pipeline.  The definitions below are a shallow embedding of the mask algebra,
segmentation caching, post-filtering and table-merge logic of
`omero_screen/image_analysis.py` and `omero_screen/general_functions.py`.
Label masks are embedded as flattened pixel lists (`List Nat`, row-major
flatten order) or, where 2-D geometry matters, as value functions over
bounded index ranges.
-/

namespace OmeroScreen

/-! ### Cytoplasm derivation (`Image._get_cyto`)

`overlap = (c_mask != 0) * (n_mask != 0)`;
`cyto_mask_binary = (c_mask != 0) * (overlap == 0)`;
result `c_mask * cyto_mask_binary`.  Numpy boolean arrays are embedded as
`Bool` values produced by `zipWith`; multiplication by a boolean array is
multiplication by its 0/1 coercion. -/

/-- Embedding of `Image._get_cyto`: subtract the nuclei mask from the cell
mask, pixelwise, on flattened masks. -/
def get_cyto (n_mask c_mask : List Nat) : List Nat :=
  let overlap := List.zipWith
    (fun c n => (decide (c ≠ 0)) && (decide (n ≠ 0))) c_mask n_mask
  let cyto_mask_binary := List.zipWith
    (fun c ov => (decide (c ≠ 0)) && (ov == false)) c_mask overlap
  List.zipWith (fun c b => c * (if b then 1 else 0)) c_mask cyto_mask_binary

/-- The single-pixel computation performed by `get_cyto`. -/
def cytoPixel (n c : Nat) : Nat :=
  c * (if (decide (c ≠ 0)) && (((decide (c ≠ 0)) && (decide (n ≠ 0))) == false)
       then 1 else 0)

theorem get_cyto_nil_left (c_mask : List Nat) : get_cyto [] c_mask = [] := by
  simp [get_cyto]

theorem get_cyto_nil_right (n_mask : List Nat) : get_cyto n_mask [] = [] := by
  simp [get_cyto]

theorem get_cyto_cons (n c : Nat) (ns cs : List Nat) :
    get_cyto (n :: ns) (c :: cs) = cytoPixel n c :: get_cyto ns cs := by
  simp [get_cyto, cytoPixel]

theorem cytoPixel_eq_ite (n c : Nat) :
    cytoPixel n c = if c ≠ 0 ∧ n = 0 then c else 0 := by
  by_cases hc : c = 0 <;> by_cases hn : n = 0 <;> simp [cytoPixel, hc, hn]

theorem get_cyto_getD (n_mask c_mask : List Nat)
    (h : n_mask.length = c_mask.length) (i : Nat) :
    (get_cyto n_mask c_mask).getD i 0 =
      (if c_mask.getD i 0 ≠ 0 ∧ n_mask.getD i 0 = 0
       then c_mask.getD i 0 else 0) := by
  induction c_mask generalizing n_mask i with
  | nil => simp [get_cyto_nil_right]
  | cons c cs ih =>
    cases n_mask with
    | nil => simp at h
    | cons n ns =>
      simp only [List.length_cons, Nat.succ.injEq] at h
      cases i with
      | zero => simp [get_cyto_cons, cytoPixel_eq_ite]
      | succ i =>
        rw [get_cyto_cons, List.getD_cons_succ, List.getD_cons_succ,
          List.getD_cons_succ]
        exact ih ns h i

theorem get_cyto_length (n_mask c_mask : List Nat) :
    (get_cyto n_mask c_mask).length = min c_mask.length n_mask.length := by
  simp [get_cyto]

theorem cytoPixel_idem (n c : Nat) :
    cytoPixel n (cytoPixel n c) = cytoPixel n c := by
  simp only [cytoPixel_eq_ite]
  by_cases hn : n = 0 <;> by_cases hc : c = 0 <;> simp [hn, hc]

/-! ### Mask bit-width compaction (`Image._compact_mask`)

`m = mask.max(); if m < 2**8: mask.astype(uint8); if m < 2**16:
mask.astype(uint16); else mask`.  Numpy dtypes are embedded as a tag plus
the wrap-around that `astype` to a narrower unsigned width performs. -/

/-- Unsigned integer element widths occurring in the pipeline
(masks are produced as `uint32`). -/
inductive DType where
  | uint8
  | uint16
  | uint32
deriving DecidableEq

/-- Bit width of a dtype. -/
def DType.bits : DType → Nat
  | .uint8 => 8
  | .uint16 => 16
  | .uint32 => 32

/-- A numpy integer array: a dtype tag plus flattened pixel values. -/
structure NDMask where
  dtype : DType
  data : List Nat
deriving DecidableEq

/-- `mask.max()` (numpy returns the largest element; masks are nonempty in
the pipeline, and the 0 default only pads the fold). -/
def npMax (l : List Nat) : Nat := l.foldr max 0

/-- `mask.astype(d)`: values wrap modulo the target width. -/
def NDMask.astype (m : NDMask) (d : DType) : NDMask :=
  ⟨d, m.data.map (fun v => v % 2 ^ d.bits)⟩

/-- Embedding of `Image._compact_mask`. -/
def compact_mask (m : NDMask) : NDMask :=
  if npMax m.data < 2 ^ 8 then m.astype .uint8
  else if npMax m.data < 2 ^ 16 then m.astype .uint16
  else m

theorem mem_le_npMax {l : List Nat} {v : Nat} (h : v ∈ l) : v ≤ npMax l := by
  induction l with
  | nil => cases h
  | cons a l ih =>
    rcases List.mem_cons.mp h with rfl | h
    · exact le_max_left _ _
    · exact le_trans (ih h) (le_max_right _ _)

theorem map_mod_eq_self {l : List Nat} {k : Nat} (h : ∀ v ∈ l, v < k) :
    l.map (fun v => v % k) = l := by
  induction l with
  | nil => rfl
  | cons a l ih =>
    simp only [List.map_cons, List.cons.injEq]
    exact ⟨Nat.mod_eq_of_lt (h a (List.mem_cons_self a l)),
      ih fun v hv => h v (List.mem_cons_of_mem a hv)⟩

/-! ### Claim theorems for the pure mask algebra -/

/-- C3: `_compact_mask` preserves every pixel value, and picks the output
width solely from the mask's maximum: `max < 256 → uint8`,
`256 ≤ max < 65536 → uint16`, otherwise the array is returned unchanged. -/
theorem compact_mask_preserves_values_and_width (m : NDMask) :
    (compact_mask m).data = m.data ∧
    (npMax m.data < 256 → (compact_mask m).dtype = DType.uint8) ∧
    (256 ≤ npMax m.data → npMax m.data < 65536 →
      (compact_mask m).dtype = DType.uint16) ∧
    (65536 ≤ npMax m.data → compact_mask m = m) := by
  unfold compact_mask
  split_ifs with h1 h2
  · refine ⟨?_, fun _ => rfl, fun h _ => absurd h1 (by omega), fun h => ?_⟩
    · exact map_mod_eq_self fun v hv =>
        lt_of_le_of_lt (mem_le_npMax hv) (by simpa using h1)
    · exact absurd h1 (by omega)
  · refine ⟨?_, fun h => absurd h (by omega),
      fun _ _ => rfl, fun h => absurd h2 (by omega)⟩
    exact map_mod_eq_self fun v hv =>
      lt_of_le_of_lt (mem_le_npMax hv) (by simpa using h2)
  · exact ⟨rfl, fun h => absurd h (by omega), fun _ h => absurd h (by omega),
      fun _ => rfl⟩

/-- Witness for C3 at a concrete mask with maximum 700. -/
theorem compact_mask_preserves_values_and_width_witness :
    (compact_mask ⟨DType.uint32, [3, 700]⟩).data = [3, 700] ∧
    (compact_mask ⟨DType.uint32, [3, 700]⟩).dtype = DType.uint16 := by
  have h := compact_mask_preserves_values_and_width ⟨DType.uint32, [3, 700]⟩
  exact ⟨h.1, h.2.2.1 (by decide) (by decide)⟩

/-- C4: the derived cytoplasm mask keeps, at every pixel, the cell-mask
value exactly when that pixel has a non-zero cell value and a zero nucleus
value, and is 0 otherwise; when no pixel satisfies this the result is the
all-zero mask rather than an error. -/
theorem get_cyto_pixelwise (n_mask c_mask : List Nat)
    (h : n_mask.length = c_mask.length) :
    (∀ i, (get_cyto n_mask c_mask).getD i 0 =
      (if c_mask.getD i 0 ≠ 0 ∧ n_mask.getD i 0 = 0
       then c_mask.getD i 0 else 0)) ∧
    ((∀ i, ¬(c_mask.getD i 0 ≠ 0 ∧ n_mask.getD i 0 = 0)) →
      ∀ i, (get_cyto n_mask c_mask).getD i 0 = 0) := by
  refine ⟨fun i => get_cyto_getD n_mask c_mask h i, fun hall i => ?_⟩
  rw [get_cyto_getD n_mask c_mask h i, if_neg (hall i)]

/-- Witness for C4: nucleus `[1,0,0]`, cell `[1,2,0]` keeps only pixel 1. -/
theorem get_cyto_pixelwise_witness :
    (get_cyto [1, 0, 0] [1, 2, 0]).getD 1 0 = 2 := by
  have h := (get_cyto_pixelwise [1, 0, 0] [1, 2, 0] rfl).1 1
  simpa using h

/-- C5: deriving the cytoplasm mask and re-deriving with the first result in
the cell-mask position returns the same mask: `_get_cyto` is idempotent in
its cell-mask argument for a fixed nucleus mask. -/
theorem get_cyto_idempotent (n_mask c_mask : List Nat)
    (h : n_mask.length = c_mask.length) :
    get_cyto n_mask (get_cyto n_mask c_mask) = get_cyto n_mask c_mask := by
  induction c_mask generalizing n_mask with
  | nil => rw [get_cyto_nil_right, get_cyto_nil_right]
  | cons c cs ih =>
    cases n_mask with
    | nil => simp at h
    | cons n ns =>
      simp only [List.length_cons, Nat.succ.injEq] at h
      rw [get_cyto_cons, get_cyto_cons, cytoPixel_idem, ih ns h]

/-- Witness for C5 at concrete masks. -/
theorem get_cyto_idempotent_witness :
    get_cyto [1, 0] (get_cyto [1, 0] [1, 2]) = get_cyto [1, 0] [1, 2] :=
  get_cyto_idempotent [1, 0] [1, 2] rfl

/-! ### Nucleus-to-cell overlay link (`ImageProperties._overlay_mask`)

`overlap = (c_mask != 0) * (n_mask != 0)`; boolean indexing of the two masks
returns the overlapping pixels in row-major flatten order, and
`overlay_all = {n[i]: c[i] for i in range(len(n))}` builds a Python dict
where a later pair with the same key overwrites the stored value. -/

/-- Overlapping pixel pairs `(nucleus label, cell label)` in flatten order. -/
def overlapPairs (n_mask c_mask : List Nat) : List (Nat × Nat) :=
  (n_mask.zip c_mask).filter fun p => (decide (p.2 ≠ 0)) && (decide (p.1 ≠ 0))

/-- One step of a Python dict comprehension: bind `p.1` to `p.2`,
overwriting any previous binding. -/
def dictInsert (d : Nat → Option Nat) (p : Nat × Nat) : Nat → Option Nat :=
  fun k => if k = p.1 then some p.2 else d k

/-- A Python dict built by a comprehension over `pairs`. -/
def pyDict (pairs : List (Nat × Nat)) : Nat → Option Nat :=
  pairs.foldl dictInsert (fun _ => none)

/-- Embedding of `ImageProperties._overlay_mask` when a cell mask is
present: the nucleus label → cell label map `overlay_all`. -/
def overlay_mask (n_mask c_mask : List Nat) : Nat → Option Nat :=
  pyDict (overlapPairs n_mask c_mask)

/-- The cell label of the first-encountered pair with the given nucleus
label (the tie-break rule stated by the spec). -/
def firstEncounteredCell (pairs : List (Nat × Nat)) (k : Nat) : Option Nat :=
  ((pairs.filter fun p => decide (p.1 = k)).head?).map Prod.snd

/-- The cell label of the last-encountered pair with the given nucleus
label. -/
def lastEncounteredCell (pairs : List (Nat × Nat)) (k : Nat) : Option Nat :=
  ((pairs.filter fun p => decide (p.1 = k)).getLast?).map Prod.snd

theorem pyDict_append_single (ps : List (Nat × Nat)) (p : Nat × Nat) :
    pyDict (ps ++ [p]) = dictInsert (pyDict ps) p := by
  simp [pyDict, List.foldl_append]

theorem pyDict_eq_last (pairs : List (Nat × Nat)) (k : Nat) :
    pyDict pairs k = lastEncounteredCell pairs k := by
  induction pairs using List.reverseRecOn with
  | nil => rfl
  | append_singleton ps p ih =>
    rw [pyDict_append_single]
    unfold dictInsert lastEncounteredCell
    rw [List.filter_append]
    by_cases hk : k = p.1
    · have hf : List.filter (fun q => decide (q.1 = k)) [p] = [p] := by
        simp [hk]
      rw [hf, List.getLast?_concat, if_pos hk]
      simp
    · have hf : List.filter (fun q => decide (q.1 = k)) [p] = [] := by
        simp
        intro h
        exact hk h.symm
      rw [hf, List.append_nil, if_neg hk]
      simpa [lastEncounteredCell] using ih

/-- C2 counterexample: with nucleus mask `[1, 1]` and cell mask `[2, 3]`
nucleus 1 overlaps both cells; the map built by `_overlay_mask` holds the
cell label of the LAST-encountered overlapping pixel (3), not the
first-encountered one (2) that the claim states. -/
theorem overlay_mask_not_first_encountered :
    firstEncounteredCell (overlapPairs [1, 1] [2, 3]) 1 = some 2 ∧
    overlay_mask [1, 1] [2, 3] 1 = some 3 ∧
    overlay_mask [1, 1] [2, 3] 1 ≠
      firstEncounteredCell (overlapPairs [1, 1] [2, 3]) 1 := by
  refine ⟨by decide, by decide, by decide⟩

/-- C2 amended: in the overlay link every nucleus label maps to at most one
cell label; when a nucleus overlaps more than one cell, the cell label of
the last-encountered overlapping pixel in array flatten order wins; a
nucleus label with no overlapping cell pixel is absent from the map. -/
theorem overlay_mask_spec (n_mask c_mask : List Nat) (k : Nat) :
    (∀ v w, overlay_mask n_mask c_mask k = some v →
      overlay_mask n_mask c_mask k = some w → v = w) ∧
    overlay_mask n_mask c_mask k =
      lastEncounteredCell (overlapPairs n_mask c_mask) k ∧
    ((∀ p ∈ overlapPairs n_mask c_mask, p.1 ≠ k) →
      overlay_mask n_mask c_mask k = none) := by
  refine ⟨fun v w hv hw => by rw [hv] at hw; exact Option.some.inj hw,
    pyDict_eq_last _ k, fun h => ?_⟩
  have hf : (overlapPairs n_mask c_mask).filter (fun p => decide (p.1 = k))
      = [] := by
    rw [List.filter_eq_nil_iff]
    intro p hp
    simpa using h p hp
  rw [show overlay_mask n_mask c_mask k
      = pyDict (overlapPairs n_mask c_mask) k from rfl,
    pyDict_eq_last, lastEncounteredCell, hf]
  rfl

/-- Witness for C2's amended theorem: nucleus 7 has no overlap pixel and is
absent from the map. -/
theorem overlay_mask_spec_witness : overlay_mask [1, 0] [2, 5] 7 = none :=
  (overlay_mask_spec [1, 0] [2, 5] 7).2.2 (by decide)

/-! ### Segmentation post-filtering (`general_functions.filter_segmentation`)

`cleared = clear_border(mask, buffer_size=5)` zeroes every label that has a
pixel in the border region (skimage uses `ext = buffer_size + 1`, so the
region is the outermost 6 rows/columns); `sizes = np.bincount(cleared)`;
`mask_sizes = sizes > 10`; `mask_sizes[0] = 0`; the returned mask is
`mask_sizes[cleared] * mask`.  A 2-D mask is embedded as a value function
over `h × w` index bounds. -/

/-- The border region examined by `clear_border` with `buffer_size = 5`. -/
def inBorder (h w i j : Nat) : Bool :=
  decide (i < 6) || decide (h ≤ i + 6) || decide (j < 6) || decide (w ≤ j + 6)

/-- Whether label `L` has a pixel inside the border region. -/
def touchesBorder (h w : Nat) (f : Nat → Nat → Nat) (L : Nat) : Bool :=
  (List.range h).any fun i =>
    (List.range w).any fun j => inBorder h w i j && decide (f i j = L)

/-- `clear_border(mask, buffer_size=5)`: every label owning a border-region
pixel is zeroed wholesale. -/
def clearedVal (h w : Nat) (f : Nat → Nat → Nat) (i j : Nat) : Nat :=
  if touchesBorder h w f (f i j) then 0 else f i j

/-- `np.bincount(g)[L]`: the number of pixels with value `L`. -/
def labelSize (h w : Nat) (g : Nat → Nat → Nat) (L : Nat) : Nat :=
  ((List.range h).map fun i =>
    (List.range w).countP fun j => decide (g i j = L)).sum

/-- Embedding of `filter_segmentation`: pixel `(i, j)` of
`mask_sizes[cleared] * mask`. -/
def filterSegVal (h w : Nat) (f : Nat → Nat → Nat) (i j : Nat) : Nat :=
  if clearedVal h w f i j ≠ 0 ∧
      10 < labelSize h w (clearedVal h w f) (clearedVal h w f i j)
  then f i j else 0

theorem labelSize_cleared_le (h w : Nat) (f : Nat → Nat → Nat) (L : Nat)
    (hL : L ≠ 0) :
    labelSize h w (clearedVal h w f) L ≤ labelSize h w f L := by
  apply List.sum_le_sum
  intro i _
  apply List.countP_mono_left
  intro j _ hcl
  rw [decide_eq_true_iff] at hcl ⊢
  unfold clearedVal at hcl
  by_cases ht : touchesBorder h w f (f i j) = true
  · rw [if_pos ht] at hcl
    exact absurd hcl.symm hL
  · rwa [if_neg ht] at hcl

theorem clearedVal_cases (h w : Nat) (f : Nat → Nat → Nat) (i j : Nat) :
    clearedVal h w f i j = 0 ∨ clearedVal h w f i j = f i j := by
  unfold clearedVal
  by_cases ht : touchesBorder h w f (f i j) = true
  · exact Or.inl (if_pos ht)
  · exact Or.inr (if_neg ht)

/-- C6: in the post-filtered mask, any object of total area at most 10
pixels is absent regardless of its position, and any object owning a pixel
in the 5-pixel border margin is absent regardless of its size. -/
theorem filter_segmentation_removes (h w : Nat) (f : Nat → Nat → Nat)
    (L : Nat) (hL : L ≠ 0) :
    (labelSize h w f L ≤ 10 →
      ∀ i j, i < h → j < w → filterSegVal h w f i j ≠ L) ∧
    ((∃ a b, a < h ∧ b < w ∧
        (a < 5 ∨ h ≤ a + 5 ∨ b < 5 ∨ w ≤ b + 5) ∧ f a b = L) →
      ∀ i j, i < h → j < w → filterSegVal h w f i j ≠ L) := by
  constructor
  · intro hsize i j _ _ heq
    unfold filterSegVal at heq
    by_cases hcond : clearedVal h w f i j ≠ 0 ∧
        10 < labelSize h w (clearedVal h w f) (clearedVal h w f i j)
    · rw [if_pos hcond] at heq
      have hcv : clearedVal h w f i j = L := by
        rcases clearedVal_cases h w f i j with h0 | hf
        · exact absurd h0 hcond.1
        · rw [hf, heq]
      have h10 := hcond.2
      rw [hcv] at h10
      have := le_trans (labelSize_cleared_le h w f L hL) hsize
      omega
    · rw [if_neg hcond] at heq
      exact hL heq.symm
  · rintro ⟨a, b, ha, hb, hbd, hv⟩ i j _ _ heq
    unfold filterSegVal at heq
    by_cases hcond : clearedVal h w f i j ≠ 0 ∧
        10 < labelSize h w (clearedVal h w f) (clearedVal h w f i j)
    · rw [if_pos hcond] at heq
      have htb : touchesBorder h w f (f i j) = true := by
        rw [heq]
        unfold touchesBorder
        rw [List.any_eq_true]
        refine ⟨a, List.mem_range.mpr ha, ?_⟩
        rw [List.any_eq_true]
        refine ⟨b, List.mem_range.mpr hb, ?_⟩
        rw [Bool.and_eq_true, decide_eq_true_iff]
        refine ⟨?_, hv⟩
        unfold inBorder
        simp only [Bool.or_eq_true, decide_eq_true_iff]
        omega
      have : clearedVal h w f i j = 0 := by
        unfold clearedVal
        exact if_pos htb
      exact hcond.1 this
    · rw [if_neg hcond] at heq
      exact hL heq.symm

/-- A 13×13 mask holding a single interior pixel with label 1 (area 1). -/
def smallObjMask : Nat → Nat → Nat :=
  fun i j => if i = 6 ∧ j = 6 then 1 else 0

/-- A 13×13 mask holding a 12-pixel column of label 3 that reaches the
border margin. -/
def borderObjMask : Nat → Nat → Nat :=
  fun i j => if i ≤ 11 ∧ j = 2 then 3 else 0

/-- Witness for C6: the tiny interior object and the large border object
are both absent from the filtered masks. -/
theorem filter_segmentation_removes_witness :
    filterSegVal 13 13 smallObjMask 6 6 ≠ 1 ∧
    filterSegVal 13 13 borderObjMask 2 2 ≠ 3 :=
  ⟨(filter_segmentation_removes 13 13 smallObjMask 1 (by decide)).1
      (by decide) 6 6 (by decide) (by decide),
    (filter_segmentation_removes 13 13 borderObjMask 3 (by decide)).2
      ⟨0, 2, by decide, by decide, Or.inl (by decide), by decide⟩
      2 2 (by decide) (by decide)⟩

/-! ### Per-timepoint segmentation loops
(`Image._n_segmentation` / `Image._c_segmentation`)

Both loops run the model once per timepoint and store
`filter_segmentation(result)` at index `t`, but their `IndexError`
substitutes differ.  `_n_segmentation` substitutes
`np.zeros(scaled_img_t.shape, dtype=np.uint8)` — 2-D, matching the
timepoint slot.  `_c_segmentation` segments
`comb_image_t = np.dstack([dapi_t, tub_t])`, of shape `(h, w, 2)`, and on
`IndexError` substitutes `np.zeros_like(comb_image_t)` — still 3-D with
trailing dimension 2; the following `filter_segmentation` call then
raises, because `clear_border(mask, buffer_size=5)` refuses any array
with a dimension not larger than the buffer size (and the assignment of
an `(h, w, 2)` array into the `(h, w)` slot `segmentation_masks[t]`
would raise as well), so that failure propagates out of the loop.
Arrays here carry their numpy shape; the pixel values are a 2-D value
function, irrelevant for arrays that `filter_segmentation` rejects.
`modelEval` abstracts `segmentation_model.eval` (a 2-D label mask on
success, the error value standing for the `IndexError`). -/

/-- A numpy array: its shape, plus its pixel values when it is 2-D. -/
structure ShapedMask where
  shape : List Nat
  val : Nat → Nat → Nat

/-- `np.zeros_like` of an array of the given shape. -/
def np_zeros_like (shape : List Nat) : ShapedMask :=
  ⟨shape, fun _ _ => 0⟩

/-- `filter_segmentation` on an arbitrary numpy array:
`clear_border(mask, buffer_size=5)` raises `ValueError` unless every
dimension exceeds the buffer size; on an accepted 2-D mask the pixel
values are `filterSegVal`. -/
def filter_segmentation_m (m : ShapedMask) : Except Unit ShapedMask :=
  if m.shape.any fun s => decide (s ≤ 5) then .error ()
  else .ok ⟨m.shape, filterSegVal (m.shape.getD 0 0) (m.shape.getD 1 0) m.val⟩

/-- Body of the `_n_segmentation` loop at timepoint `t`: on `IndexError`
the substitute `np.zeros(scaled_img_t.shape, dtype=np.uint8)` matches the
2-D frame shape. -/
def n_segmentation_timepoint (h w : Nat)
    (modelEval : Nat → Except Unit (Nat → Nat → Nat)) (t : Nat) :
    Except Unit ShapedMask :=
  match modelEval t with
  | .ok m => filter_segmentation_m ⟨[h, w], m⟩
  | .error _ => filter_segmentation_m ⟨[h, w], fun _ _ => 0⟩

/-- Body of the `_c_segmentation` loop at timepoint `t`: on `IndexError`
the substitute `np.zeros_like(comb_image_t)` keeps the 3-D shape
`[h, w, 2]` of the stacked two-channel input. -/
def c_segmentation_timepoint (h w : Nat)
    (modelEval : Nat → Except Unit (Nat → Nat → Nat)) (t : Nat) :
    Except Unit ShapedMask :=
  match modelEval t with
  | .ok m => filter_segmentation_m ⟨[h, w], m⟩
  | .error _ => filter_segmentation_m (np_zeros_like [h, w, 2])

/-- The `_c_segmentation` loop over the given timepoints: a raising
timepoint aborts the loop, so the remaining timepoints are not
processed. -/
def c_segmentation_loop (h w : Nat)
    (modelEval : Nat → Except Unit (Nat → Nat → Nat)) :
    List Nat → Except Unit (List ShapedMask)
  | [] => .ok []
  | t :: ts => do
    let m ← c_segmentation_timepoint h w modelEval t
    let rest ← c_segmentation_loop h w modelEval ts
    .ok (m :: rest)

/-- Embedding of `Image._c_segmentation` over `T` timepoints. -/
def c_segmentation (T h w : Nat)
    (modelEval : Nat → Except Unit (Nat → Nat → Nat)) :
    Except Unit (List ShapedMask) :=
  c_segmentation_loop h w modelEval (List.range T)

/-- A model that fails with an indexing fault at timepoint 0 and returns
an all-background frame at the other timepoints. -/
def modelEvalW : Nat → Except Unit (Nat → Nat → Nat) :=
  fun t => if t = 0 then .error () else .ok fun _ _ => 0

/-- On a big-enough 2-D frame, the `_n_segmentation` loop body does
recover from an indexing failure with a post-filtered all-zero mask. -/
theorem n_segmentation_timepoint_recovers (h w : Nat)
    (modelEval : Nat → Except Unit (Nat → Nat → Nat)) (t : Nat)
    (hh : 5 < h) (hw : 5 < w) (herr : modelEval t = .error ()) :
    n_segmentation_timepoint h w modelEval t
      = .ok ⟨[h, w], filterSegVal h w fun _ _ => 0⟩ := by
  unfold n_segmentation_timepoint
  rw [herr]
  unfold filter_segmentation_m
  rw [if_neg (by simp; omega)]
  rfl

/-- C7: evaluation of the nucleus+cell loop at the failing input — a
16×16, 2-timepoint run whose model raises an indexing failure at
timepoint 0.  The substitute `np.zeros_like(comb_image_t)` has the 3-D
shape `[16, 16, 2]`; `filter_segmentation` rejects it (the trailing
dimension 2 is not larger than the border buffer 5), so the failure
propagates out of `_c_segmentation`: no all-zero mask is stored for
timepoint 0 and timepoint 1 is never processed, contrary to the claim. -/
theorem c_segmentation_index_fault_propagates :
    filter_segmentation_m (np_zeros_like [16, 16, 2]) = .error () ∧
    c_segmentation_timepoint 16 16 modelEvalW 0 = .error () ∧
    c_segmentation 2 16 16 modelEvalW = .error () :=
  ⟨rfl, rfl, rfl⟩

/-! ### Flatfield correction (`Image._get_img_dict`)

`img = array[..., int(idx)] / self._flatfield_dict[ch]` divides the raw
channel stack elementwise by the correction field using numpy semantics:
the result is float-valued, and numpy broadcasting accepts certain
unequal shape pairs (a dimension may also be 1 on either side).  No
`ShapeMismatchError` class exists anywhere in the repository; on
incompatible shapes numpy itself raises.  Frames are embedded as 2-D
arrays of exact rationals. -/

/-- A 2-D float array (rows of exact rationals). -/
structure Arr2 where
  rows : List (List Rat)
deriving DecidableEq

/-- Number of rows. -/
def Arr2.height (a : Arr2) : Nat := a.rows.length

/-- Number of columns (of a rectangular array). -/
def Arr2.width (a : Arr2) : Nat := (a.rows.getD 0 []).length

/-- Element access, 0 outside the bounds. -/
def Arr2.val (a : Arr2) (i j : Nat) : Rat := (a.rows.getD i []).getD j 0

/-- Numpy broadcast of one dimension pair. -/
def bcLen (m n : Nat) : Option Nat :=
  if m = n then some m
  else if m = 1 then some n
  else if n = 1 then some m
  else none

/-- Elementwise division of two 2-D arrays with numpy broadcasting;
the error value stands for numpy's operand-shape error. -/
def broadcast_div (a b : Arr2) : Except Unit Arr2 :=
  match bcLen a.height b.height, bcLen a.width b.width with
  | some hh, some ww =>
    .ok ⟨(List.range hh).map fun i => (List.range ww).map fun j =>
      a.val (if a.height = 1 then 0 else i) (if a.width = 1 then 0 else j) /
      b.val (if b.height = 1 then 0 else i) (if b.width = 1 then 0 else j)⟩
  | _, _ => .error ()

theorem getD_map_range {α : Type} (n : Nat) (g : Nat → α) (d : α) (i : Nat)
    (h : i < n) : ((List.range n).map g).getD i d = g i := by
  rw [List.getD_eq_getElem?_getD, List.getElem?_map, List.getElem?_range h]
  rfl

/-- C8 counterexample: a 2×2 raw stack divided by a 1×2 correction field
has disagreeing shapes, yet the division succeeds (numpy broadcasts the
field across rows) instead of failing; so "fails exactly when the
correction field's shape disagrees with the image's shape" is false. -/
theorem flatfield_shape_failure_not_exact :
    (⟨[[2, 4], [6, 8]]⟩ : Arr2).height ≠ (⟨[[1, 2]]⟩ : Arr2).height ∧
    (broadcast_div ⟨[[2, 4], [6, 8]]⟩ ⟨[[1, 2]]⟩).toOption.isSome = true := by
  exact ⟨by decide, rfl⟩

/-- C8 amended: flatfield correction is the elementwise quotient
`raw / field` (always as exact values of the float embedding, with no
side effects); with equal shapes it always succeeds with the pointwise
quotient, and it fails exactly when the two shapes cannot be broadcast
together — the failure is the array library's error, as no
`ShapeMismatchError` exists in the code. -/
theorem flatfield_correction_spec (a b : Arr2) :
    ((∃ r, broadcast_div a b = .ok r) ↔
      (bcLen a.height b.height).isSome ∧ (bcLen a.width b.width).isSome) ∧
    (a.height = b.height → a.width = b.width →
      ∃ r, broadcast_div a b = .ok r ∧ r.height = a.height ∧
        ∀ i j, i < a.height → j < a.width →
          r.val i j = a.val i j / b.val i j) := by
  have hidx : ∀ (x m : Nat), x < m → (if m = 1 then 0 else x) = x := by
    intro x m hx
    by_cases hm : m = 1
    · rw [if_pos hm]
      omega
    · exact if_neg hm
  constructor
  · cases hH : bcLen a.height b.height <;>
      cases hW : bcLen a.width b.width <;>
      simp [broadcast_div, hH, hW]
  · intro hh hw
    have eh : bcLen a.height b.height = some a.height := by
      rw [← hh]
      simp [bcLen]
    have ew : bcLen a.width b.width = some a.width := by
      rw [← hw]
      simp [bcLen]
    refine ⟨⟨(List.range a.height).map fun i => (List.range a.width).map
        fun j =>
          a.val (if a.height = 1 then 0 else i)
            (if a.width = 1 then 0 else j) /
          b.val (if b.height = 1 then 0 else i)
            (if b.width = 1 then 0 else j)⟩, ?_, ?_, ?_⟩
    · unfold broadcast_div
      rw [eh, ew]
    · simp [Arr2.height]
    · intro i j hi hj
      show ((((List.range a.height).map fun i => (List.range a.width).map
          fun j =>
            a.val (if a.height = 1 then 0 else i)
              (if a.width = 1 then 0 else j) /
            b.val (if b.height = 1 then 0 else i)
              (if b.width = 1 then 0 else j)).getD i []).getD j 0)
          = a.val i j / b.val i j
      rw [getD_map_range a.height _ [] i hi, getD_map_range a.width _ 0 j hj,
        ← hh, ← hw, hidx i a.height hi, hidx j a.width hj]

/-- Witness for C8's amended theorem at a same-shaped 1×2 pair. -/
theorem flatfield_correction_spec_witness :
    ∃ r, broadcast_div (⟨[[4, 9]]⟩ : Arr2) ⟨[[2, 3]]⟩ = .ok r ∧
      r.height = (⟨[[4, 9]]⟩ : Arr2).height ∧
      ∀ i j, i < (⟨[[4, 9]]⟩ : Arr2).height →
        j < (⟨[[4, 9]]⟩ : Arr2).width →
        r.val i j = (⟨[[4, 9]]⟩ : Arr2).val i j / (⟨[[2, 3]]⟩ : Arr2).val i j :=
  (flatfield_correction_spec ⟨[[4, 9]]⟩ ⟨[[2, 3]]⟩).2 rfl rfl

/-! ### Mask acquisition and caching (`Image._segmentation`)

The dataset's children are scanned for an image named
`"{image_id}_segmentation"`; the first match is loaded and split
(channel 0 = nucleus, channel 1 = cell when a "Tub" channel is
configured) and no model runs and nothing is uploaded.  Otherwise the
masks are computed (`_n_segmentation`, `_c_segmentation` — abstracted
here by their results `nSeg`/`cSeg`), compacted, and uploaded once.
Stored multi-channel masks are embedded as lists of flattened channel
arrays. -/

/-- The environment `_segmentation` runs in. -/
structure SegEnv where
  children : List (String × List (List Nat))
  imageId : Nat
  tubPresent : Bool
  nSeg : List Nat
  cSeg : List Nat

/-- `f"{self.omero_image.getId()}_segmentation"`. -/
def maskName (env : SegEnv) : String := toString env.imageId ++ "_segmentation"

/-- The value and effects of one `_segmentation` run. -/
structure SegOutcome where
  n_mask : List Nat
  c_mask : Option (List Nat)
  cyto_mask : Option (List Nat)
  modelInvoked : Bool
  uploaded : Bool

/-- Embedding of `Image._segmentation`. -/
def segmentation (env : SegEnv) : SegOutcome :=
  match env.children.find? (fun ch => decide (ch.1 = maskName env)) with
  | some found =>
    let masks := found.2
    let n := masks.getD 0 []
    if env.tubPresent then
      let c := masks.getD 1 []
      ⟨n, some c, some (get_cyto n c), false, false⟩
    else
      ⟨n, none, none, false, false⟩
  | none =>
    if env.tubPresent then
      let stacked := compact_mask ⟨DType.uint32, env.nSeg ++ env.cSeg⟩
      let n := stacked.data.take env.nSeg.length
      let c := stacked.data.drop env.nSeg.length
      ⟨n, some c, some (get_cyto n c), true, true⟩
    else
      ⟨(compact_mask ⟨DType.uint32, env.nSeg⟩).data, none, none, true, true⟩

/-- C9: when a mask image named `"{image_id}_segmentation"` exists among
the dataset's children, `_segmentation` invokes no segmentation model,
uploads nothing, and returns exactly the stored masks — channel 0 as the
nucleus mask and, when a cell channel ("Tub") is configured, channel 1 as
the cell mask with the cytoplasm mask derived from the two. -/
theorem segmentation_cache_hit (env : SegEnv)
    (hmem : maskName env ∈ env.children.map Prod.fst) :
    ∃ stored,
      env.children.find? (fun ch => decide (ch.1 = maskName env))
        = some stored ∧
      stored.1 = maskName env ∧
      (segmentation env).modelInvoked = false ∧
      (segmentation env).uploaded = false ∧
      (segmentation env).n_mask = stored.2.getD 0 [] ∧
      (segmentation env).c_mask =
        (if env.tubPresent then some (stored.2.getD 1 []) else none) ∧
      (segmentation env).cyto_mask =
        (if env.tubPresent
         then some (get_cyto (stored.2.getD 0 []) (stored.2.getD 1 []))
         else none) := by
  have hsome : (env.children.find?
      (fun ch => decide (ch.1 = maskName env))).isSome := by
    rw [List.find?_isSome]
    rcases List.mem_map.mp hmem with ⟨ch, hch, hname⟩
    exact ⟨ch, hch, by rw [decide_eq_true_iff]; exact hname⟩
  rcases Option.isSome_iff_exists.mp hsome with ⟨stored, hfound⟩
  have hname : stored.1 = maskName env := by
    have := List.find?_some hfound
    rwa [decide_eq_true_iff] at this
  refine ⟨stored, hfound, hname, ?_⟩
  unfold segmentation
  rw [hfound]
  by_cases ht : env.tubPresent <;> simp [ht]

/-- A concrete environment whose dataset already holds
`"7_segmentation"`. -/
def cacheEnvW : SegEnv :=
  ⟨[("7_segmentation", [[1, 0, 2, 2], [3, 3, 0, 3]])], 7, true, [9], [9]⟩

/-- Witness for C9 at `cacheEnvW`. -/
theorem segmentation_cache_hit_witness :
    ∃ stored,
      cacheEnvW.children.find? (fun ch => decide (ch.1 = maskName cacheEnvW))
        = some stored ∧
      stored.1 = maskName cacheEnvW ∧
      (segmentation cacheEnvW).modelInvoked = false ∧
      (segmentation cacheEnvW).uploaded = false ∧
      (segmentation cacheEnvW).n_mask = stored.2.getD 0 [] ∧
      (segmentation cacheEnvW).c_mask =
        (if cacheEnvW.tubPresent then some (stored.2.getD 1 []) else none) ∧
      (segmentation cacheEnvW).cyto_mask =
        (if cacheEnvW.tubPresent
         then some (get_cyto (stored.2.getD 0 []) (stored.2.getD 1 []))
         else none) :=
  segmentation_cache_hit cacheEnvW (by decide)

/-- C10: the cytoplasm mask returned by `_segmentation` is `none` exactly
when the cell mask is `none`, and both are `none` exactly when no
cell-type channel ("Tub") is configured — on the cache-hit path and on
the fresh-computation path alike. -/
theorem segmentation_c_mask_iff_cyto_mask (env : SegEnv) :
    ((segmentation env).c_mask = none ↔ (segmentation env).cyto_mask = none) ∧
    ((segmentation env).c_mask = none ↔ env.tubPresent = false) := by
  unfold segmentation
  cases hfind : env.children.find? (fun ch => decide (ch.1 = maskName env)) <;>
    cases ht : env.tubPresent <;> simp

/-! ### Outer-merge reconciliation (`ImageProperties._outer_merge`)

`pd.merge(df1, df2, how="outer", on=on).dropna(axis=0, how="any")`
followed by two loops that restore the integer dtype of every `df1`/`df2`
column that the join coerced to a float dtype.  A measurement table is
embedded as per-column integer-dtype flags (for its non-key data columns)
plus rows of (join key, data values); the key type is an arbitrary
decidable type so the `"label"` and `["label", "timepoint"]` joins are
both instances.  The outer join pairs each left row with every matching
right row, pads unmatched rows of either side with NA on the other side,
and a column acquires float dtype exactly when some (pre-`dropna`) row
holds NA in it. -/

/-- A measurement table. -/
structure MTable (K : Type) where
  intCols : List Bool
  rows : List (K × List Int)

/-- The join-key column of a table. -/
def tkeys {K : Type} (t : MTable K) : List K := t.rows.map Prod.fst

/-- The data of the rows of `rs` whose key is `k`. -/
def matchRows {K : Type} [DecidableEq K] (rs : List (K × List Int))
    (k : K) : List (List Int) :=
  (rs.filter fun r => decide (r.1 = k)).map Prod.snd

/-- The rows of the outer join before `dropna`: each left row paired with
every matching right row (or NA-padded when unmatched), then the
unmatched right rows NA-padded on the left. -/
def outerRows {K : Type} [DecidableEq K] (t1 t2 : MTable K) :
    List (K × Option (List Int) × Option (List Int)) :=
  (t1.rows.flatMap fun r =>
    if (matchRows t2.rows r.1).isEmpty
    then [(r.1, some r.2, none)]
    else (matchRows t2.rows r.1).map fun v2 => (r.1, some r.2, some v2)) ++
  ((t2.rows.filter fun r => decide (r.1 ∉ tkeys t1)).map
    fun r => (r.1, none, some r.2))

/-- A merged row contains NA when a side with at least one data column
came from no matching row. -/
def rowHasNA {K : Type} (t1 t2 : MTable K)
    (r : K × Option (List Int) × Option (List Int)) : Bool :=
  (r.2.1.isNone && !t1.intCols.isEmpty) || (r.2.2.isNone && !t2.intCols.isEmpty)

/-- Whether the join put an NA into the left-side data columns. -/
def leftNA {K : Type} [DecidableEq K] (t1 t2 : MTable K) : Bool :=
  (outerRows t1 t2).any fun r => r.2.1.isNone

/-- Whether the join put an NA into the right-side data columns. -/
def rightNA {K : Type} [DecidableEq K] (t1 t2 : MTable K) : Bool :=
  (outerRows t1 t2).any fun r => r.2.2.isNone

/-- The restore loop body: a column that was integer in the input and is
no longer integer after the merge is cast back to its input dtype. -/
def restoreDtype (orig merged : Bool) : Bool :=
  if orig && !merged then orig else merged

/-- The value of `_outer_merge`: rows after `dropna`, and the final
integer-dtype flags of the left and right data columns. -/
structure MergedTable (K : Type) where
  rows : List (K × Option (List Int) × Option (List Int))
  leftInt : List Bool
  rightInt : List Bool

/-- Embedding of `ImageProperties._outer_merge`. -/
def outer_merge {K : Type} [DecidableEq K] (t1 t2 : MTable K) :
    MergedTable K :=
  ⟨(outerRows t1 t2).filter fun r => !(rowHasNA t1 t2 r),
   t1.intCols.map fun b => restoreDtype b (b && !(leftNA t1 t2)),
   t2.intCols.map fun b => restoreDtype b (b && !(rightNA t1 t2))⟩

theorem matchRows_eq_nil {K : Type} [DecidableEq K]
    {rs : List (K × List Int)} {k : K} (h : k ∉ rs.map Prod.fst) :
    matchRows rs k = [] := by
  unfold matchRows
  rw [List.filter_eq_nil_iff.mpr, List.map_nil]
  intro r hr
  rw [decide_eq_true_iff]
  intro hk
  exact h (hk ▸ List.mem_map_of_mem Prod.fst hr)

theorem matchRows_length_one {K : Type} [DecidableEq K]
    {rs : List (K × List Int)} {k : K} (hn : (rs.map Prod.fst).Nodup)
    (hk : k ∈ rs.map Prod.fst) : (matchRows rs k).length = 1 := by
  induction rs with
  | nil => simp at hk
  | cons r rs ih =>
    rw [List.map_cons, List.nodup_cons] at hn
    rw [List.map_cons] at hk
    rcases List.mem_cons.mp hk with hk0 | hk1
    · have htail : matchRows rs k = []:= matchRows_eq_nil (by rw [hk0]; exact hn.1)
      have hfil : rs.filter (fun rr => decide (rr.1 = k)) = [] := by
        unfold matchRows at htail
        exact List.map_eq_nil_iff.mp htail
      unfold matchRows
      rw [List.filter_cons, if_pos (by rw [decide_eq_true_iff]; exact hk0.symm),
        hfil]
      rfl
    · have hne : ¬(r.1 = k) := fun h => hn.1 (h ▸ hk1)
      unfold matchRows at ih ⊢
      rw [List.filter_cons, if_neg (by rw [decide_eq_true_iff]; exact hne)]
      exact ih hn.2 hk1

theorem restoreDtype_self (b c : Bool) : restoreDtype b (b && c) = b := by
  cases b <;> cases c <;> rfl

theorem restored_cols_eq {cols : List Bool} {na : Bool} :
    (cols.map fun b => restoreDtype b (b && !na)) = cols := by
  have h : (fun b => restoreDtype b (b && !na)) = fun b => b :=
    funext fun b => restoreDtype_self b (!na)
  rw [h]
  exact List.map_id cols

theorem flatMap_length_of_one {α β : Type} (l : List α) (f : α → List β)
    (h : ∀ a ∈ l, (f a).length = 1) : (l.flatMap f).length = l.length := by
  induction l with
  | nil => rfl
  | cons a l ih =>
    rw [List.flatMap_cons, List.length_append, h a (List.mem_cons_self a l),
      ih fun b hb => h b (List.mem_cons_of_mem a hb), List.length_cons]
    omega

theorem matchRows_isEmpty_false {K : Type} [DecidableEq K]
    {rs : List (K × List Int)} {k : K} (h : (matchRows rs k).length = 1) :
    (matchRows rs k).isEmpty = false := by
  cases hm : matchRows rs k with
  | nil => rw [hm] at h; simp at h
  | cons a l => rfl

/-- C1: `_outer_merge` on measurement tables (at least one data column on
each side): with disjoint join-key sets the merged result has zero rows
(every merged row holds an NA and is dropped); with fully overlapping
join keys the merged row count equals the input row count and every
column with an integer dtype before the merge still has an integer dtype
after it. -/
theorem outer_merge_reconciliation {K : Type} [DecidableEq K]
    (t1 t2 : MTable K) (hc1 : t1.intCols ≠ []) (hc2 : t2.intCols ≠ []) :
    ((∀ k, k ∈ tkeys t1 → k ∉ tkeys t2) →
      (outer_merge t1 t2).rows.length = 0) ∧
    ((tkeys t1).Nodup → (tkeys t2).Nodup →
      (∀ k, k ∈ tkeys t1 ↔ k ∈ tkeys t2) →
      (outer_merge t1 t2).rows.length = t1.rows.length ∧
      (∀ i, t1.intCols.getD i false = true →
        (outer_merge t1 t2).leftInt.getD i false = true) ∧
      (∀ i, t2.intCols.getD i false = true →
        (outer_merge t1 t2).rightInt.getD i false = true)) := by
  constructor
  · intro hdisj
    have hall : ∀ r ∈ outerRows t1 t2, rowHasNA t1 t2 r = true := by
      intro r hr
      unfold outerRows at hr
      rcases List.mem_append.mp hr with hl | hrgt
      · rcases List.mem_flatMap.mp hl with ⟨row, hrow, hrf⟩
        have hkey : row.1 ∈ tkeys t1 := List.mem_map_of_mem Prod.fst hrow
        rw [matchRows_eq_nil (hdisj row.1 hkey)] at hrf
        simp only [List.isEmpty_nil, if_true, List.mem_singleton] at hrf
        rw [hrf]
        unfold rowHasNA
        simp [hc2]
      · rcases List.mem_map.mp hrgt with ⟨row, hrow, hre⟩
        rw [← hre]
        unfold rowHasNA
        simp [hc1]
    show ((outerRows t1 t2).filter fun r => !(rowHasNA t1 t2 r)).length = 0
    rw [List.filter_eq_nil_iff.mpr fun r hr => by rw [hall r hr]; simp]
    rfl
  · intro hn1 hn2 hiff
    have hmatch1 : ∀ row ∈ t1.rows, (matchRows t2.rows row.1).length = 1 :=
      fun row hrow => matchRows_length_one hn2
        ((hiff row.1).mp (List.mem_map_of_mem Prod.fst hrow))
    have hrightnil : (t2.rows.filter fun r => decide (r.1 ∉ tkeys t1)) = [] := by
      rw [List.filter_eq_nil_iff]
      intro r hr
      rw [decide_eq_true_iff]
      intro hnot
      exact hnot ((hiff r.1).mpr (List.mem_map_of_mem Prod.fst hr))
    have houter : outerRows t1 t2 = t1.rows.flatMap fun r =>
        if (matchRows t2.rows r.1).isEmpty then [(r.1, some r.2, none)]
        else (matchRows t2.rows r.1).map fun v2 => (r.1, some r.2, some v2) := by
      unfold outerRows
      rw [hrightnil]
      simp
    have hflen : ∀ row ∈ t1.rows,
        ((if (matchRows t2.rows row.1).isEmpty
          then [(row.1, some row.2, none)]
          else (matchRows t2.rows row.1).map
            fun v2 => (row.1, some row.2, some v2)) :
          List (K × Option (List Int) × Option (List Int))).length = 1 := by
      intro row hrow
      rw [if_neg (by rw [matchRows_isEmpty_false (hmatch1 row hrow)]; simp),
        List.length_map]
      exact hmatch1 row hrow
    have hnoNA : ∀ r ∈ outerRows t1 t2, rowHasNA t1 t2 r = false := by
      intro r hr
      rw [houter] at hr
      rcases List.mem_flatMap.mp hr with ⟨row, hrow, hrf⟩
      rw [if_neg (by rw [matchRows_isEmpty_false (hmatch1 row hrow)]; simp)]
        at hrf
      rcases List.mem_map.mp hrf with ⟨v2, _, hre⟩
      rw [← hre]
      unfold rowHasNA
      simp
    refine ⟨?_, ?_, ?_⟩
    · show ((outerRows t1 t2).filter
        fun r => !(rowHasNA t1 t2 r)).length = t1.rows.length
      rw [List.filter_eq_self.mpr fun r hr => by rw [hnoNA r hr]; rfl, houter]
      exact flatMap_length_of_one _ _ hflen
    · intro i hi
      show (t1.intCols.map
        fun b => restoreDtype b (b && !(leftNA t1 t2))).getD i false = true
      rw [restored_cols_eq]
      exact hi
    · intro i hi
      show (t2.intCols.map
        fun b => restoreDtype b (b && !(rightNA t1 t2))).getD i false = true
      rw [restored_cols_eq]
      exact hi

/-- A concrete nucleus-side table: one integer data column, keys
`(label, timepoint)`. -/
def wT1 : MTable (Nat × Nat) := ⟨[true], [((1, 0), [10]), ((2, 0), [20])]⟩

/-- A concrete cell-side table with the same join keys and one integer
plus one float data column. -/
def wT2 : MTable (Nat × Nat) :=
  ⟨[true, false], [((1, 0), [5, 7]), ((2, 0), [6, 8])]⟩

/-- Witness for C1 at fully overlapping keys: the merged row count equals
the input row count and the integer column stays integer. -/
theorem outer_merge_reconciliation_witness :
    (outer_merge wT1 wT2).rows.length = wT1.rows.length ∧
    (outer_merge wT1 wT2).leftInt.getD 0 false = true := by
  have h := (outer_merge_reconciliation wT1 wT2 (by decide) (by decide)).2
    (by decide) (by decide) (fun k => Iff.rfl)
  exact ⟨h.1, h.2.1 0 (by decide)⟩

end OmeroScreen
